import Mathlib

/-!
Verification of the RoExport tree-walking extraction engine
(`src/roexport/parser.py`) against its specification.

The XML element tree produced by the external decoder is embedded as the
nested inductive `Elem`: a tag, an attribute list, optional text content and
an ordered list of children.  `element.get(k, d)` becomes `getAttrD`,
`element.findall(".//Properties")` becomes a filter over the pre-order
`descendants` list, and `element.findall(".//string[@name=...]")` becomes
`stringLeaves`.  Python string truthiness (`if name`, `if source`) is the
test against the empty string; `str.strip` / `str.rstrip` are `pyStrip` /
`pyRstrip`; `os.path.join` on POSIX is `osPathJoin`.  The stateful
`RobloxFileParser._parse_element` (which appends into `self.scripts`) is
embedded with explicit state passing; `walk` is the equivalent pure
formulation, and the two are related by `parse_element_eq_walk`.

Modelling notes: Python's `str.isalnum` and its whitespace set are
Unicode-aware; they are embedded over their ASCII core (`Char.isAlphanum`,
`isPyWs`), which is exact on ASCII input and the granularity at which the
specification speaks of "alphanumeric characters" and "whitespace".  File
I/O (existence and extension checks of `parse_file`, lines 60-64) is outside
the embedding: the specification scopes it out as collaborator concerns.
-/

/-- Python whitespace characters recognised by `str.strip` (ASCII range). -/
def isPyWs (c : Char) : Bool :=
  c = ' ' || c = '\t' || c = '\n' || c = '\r' || c = '\x0b' || c = '\x0c'

/-- Python `str.strip()`: drop leading and trailing whitespace. -/
def pyStrip (s : String) : String :=
  String.mk (((s.data.dropWhile isPyWs).reverse.dropWhile isPyWs).reverse)

/-- Python `str.rstrip()`: drop trailing whitespace. -/
def pyRstrip (s : String) : String :=
  String.mk ((s.data.reverse.dropWhile isPyWs).reverse)

/-- Whether a string's first character is the path separator. -/
def headIsSlash (s : String) : Bool :=
  match s.data with
  | [] => false
  | c :: _ => c = '/'

/-- Whether a string's last character is the path separator. -/
def lastIsSlash (s : String) : Bool :=
  match s.data.getLast? with
  | some c => c = '/'
  | none => false

/-- POSIX `os.path.join` on two components, as used by the parser: an
absolute second component replaces the first, otherwise the separator is
inserted unless already present. -/
def osPathJoin (a b : String) : String :=
  if headIsSlash b then b
  else if a = "" || lastIsSlash a then a ++ b
  else a ++ "/" ++ b

/-- The membership test `class_name in ["Script", "LocalScript", "ModuleScript"]`. -/
def isScriptClass (c : String) : Bool :=
  c == "Script" || c == "LocalScript" || c == "ModuleScript"

/-- A decoded XML element: tag, attributes, text content, ordered children. -/
inductive Elem : Type where
  | mk (tag : String) (attrs : List (String × String)) (text : Option String)
      (children : List Elem)

/-- The element's tag. -/
def Elem.tag : Elem → String
  | .mk t _ _ _ => t

/-- The element's attribute list. -/
def Elem.attrs : Elem → List (String × String)
  | .mk _ a _ _ => a

/-- The element's text content (`None` in Python becomes `none`). -/
def Elem.text : Elem → Option String
  | .mk _ _ x _ => x

/-- The element's ordered list of child elements. -/
def Elem.children : Elem → List Elem
  | .mk _ _ _ cs => cs

/-- Attribute lookup, `element.get(key)`. -/
def Elem.getAttr (e : Elem) (k : String) : Option String :=
  (e.attrs.find? (fun p => p.1 == k)).map (fun p => p.2)

/-- Attribute lookup with default, `element.get(key, d)`. -/
def Elem.getAttrD (e : Elem) (k d : String) : String :=
  (e.getAttr k).getD d

mutual

/-- All proper descendants of an element in document (pre-)order: the node
sequence that `element.findall(".//tag")` filters. -/
def Elem.descendants : Elem → List Elem
  | .mk _ _ _ cs => descList cs

/-- Descendants of a list of sibling subtrees, in document order. -/
def descList : List Elem → List Elem
  | [] => []
  | c :: cs => c :: c.descendants ++ descList cs

end

/-- The `Properties` groupings below an element:
`element.findall(".//Properties")` in `parser.py`. -/
def propsGroupings (e : Elem) : List Elem :=
  e.descendants.filter (fun d => d.tag == "Properties")

/-- The string-typed leaves with a given `name` attribute below an element:
`element.findall(".//string[@name=...]")`. -/
def stringLeaves (e : Elem) (nm : String) : List Elem :=
  e.descendants.filter (fun d => d.tag == "string" && d.getAttr "name" == some nm)

/-- The first direct child of a grouping whose `name` attribute is `nm`
(the inner `for child in prop: if child.get('name') == nm` loop). -/
def findNamedChild (g : Elem) (nm : String) : Option Elem :=
  g.children.find? (fun c => c.getAttr "name" == some nm)

/-- The scan of `_get_element_name` lines 132-135: walk the groupings in
document order and return from the first grouping that has a child named
`nm` (the `return` exits both loops). -/
def scanForNamed : List Elem → String → Option Elem
  | [], _ => none
  | g :: gs, nm =>
    match findNamedChild g nm with
    | some c => some c
    | none => scanForNamed gs nm

/-- The scan of `_extract_script` lines 110-115: the `break` leaves only the
inner loop, so each later grouping that has a `Source` child overwrites the
value taken from an earlier one. -/
def sourcePropsScan (gs : List Elem) : String :=
  gs.foldl
    (fun source g =>
      match findNamedChild g "Source" with
      | some c => (c.text).getD ""
      | none => source)
    ""

/-- Lines 85 and the kind test of `_parse_element`: `element.get('class', '')`. -/
def elemClass (e : Elem) : String :=
  e.getAttrD "class" ""

/-- The name resolution of `_get_element_name` (lines 128-142): first Name
entry of any Properties grouping in the subtree, then the first string leaf
named Name in the subtree, then `referent`, then `class`. -/
def _get_element_name (e : Elem) : String :=
  match scanForNamed (propsGroupings e) "Name" with
  | some c => (c.text).getD ""
  | none =>
    match (stringLeaves e "Name").head? with
    | some s => (s.text).getD ""
    | none => e.getAttrD "referent" (e.getAttrD "class" "")

/-- The two-strategy Source lookup of `_extract_script` (lines 109-121):
strategy (a) is the overwrite scan over Properties groupings; when its
result is the empty string (`if not source:`), strategy (b) takes the first
string leaf named Source in the subtree. -/
def lookupSource (e : Elem) : String :=
  let source := sourcePropsScan (propsGroupings e)
  if source = "" then
    match (stringLeaves e "Source").head? with
    | some s => (s.text).getD ""
    | none => source
  else source

/-- A script record (`RobloxScript.__init__`). -/
structure RobloxScript : Type where
  name : String
  source : String
  script_type : String
  parent_path : String
deriving DecidableEq, Repr

/-- Filename generation, `RobloxScript.get_filename` (lines 22-35). -/
def RobloxScript.get_filename (s : RobloxScript) : String :=
  let clean0 :=
    pyRstrip (String.mk (s.name.data.filter
      (fun c => c.isAlphanum || c == ' ' || c == '-' || c == '_')))
  let clean_name := if clean0 = "" then "script" else clean0
  if s.script_type = "ModuleScript" then clean_name ++ ".lua"
  else if s.script_type = "LocalScript" then clean_name ++ ".client.lua"
  else clean_name ++ ".server.lua"

/-- Full path generation, `RobloxScript.get_full_path` (lines 37-41). -/
def RobloxScript.get_full_path (s : RobloxScript) : String :=
  if s.parent_path ≠ "" then osPathJoin s.parent_path s.get_filename
  else s.get_filename

/-- Script extraction from a script-kind element,
`RobloxFileParser._extract_script` (lines 102-126). -/
def _extract_script (e : Elem) (script_type parent_path : String) :
    Option RobloxScript :=
  let name0 := _get_element_name e
  let name := if name0 = "" then "unnamed_" ++ script_type.toLower else name0
  let source := lookupSource e
  if pyStrip source ≠ "" then some ⟨name, source, script_type, parent_path⟩
  else none

/-- The record attempt made when visiting one element (lines 85-89): only
script-kind elements are extracted from. -/
def visitRecord (e : Elem) (p : String) : Option RobloxScript :=
  if isScriptClass (elemClass e) = true then _extract_script e (elemClass e) p
  else none

/-- The path handed to an element's children (lines 91-96): a non-script
element with a non-empty resolved name appends that name as a segment,
otherwise the parent path is inherited unchanged. -/
def childPathOf (e : Elem) (p : String) : String :=
  if _get_element_name e ≠ "" ∧ isScriptClass (elemClass e) = false then
    if p ≠ "" then osPathJoin p (_get_element_name e) else _get_element_name e
  else p

mutual

/-- The stateful recursive walk `RobloxFileParser._parse_element`
(lines 81-100), with `self.scripts` passed explicitly: the element's own
record (if any) is appended first, then the children are visited in order
with the updated path. -/
def _parse_element : Elem → String → List RobloxScript → List RobloxScript
  | e@(.mk _ _ _ cs), parent_path, scripts =>
    parseChildren cs (childPathOf e parent_path)
      (match visitRecord e parent_path with
       | some s => scripts ++ [s]
       | none => scripts)

/-- The `for child in element` loop of `_parse_element`, threading the
accumulated script list left to right. -/
def parseChildren : List Elem → String → List RobloxScript → List RobloxScript
  | [], _, acc => acc
  | c :: cs, p, acc => parseChildren cs p (_parse_element c p acc)

end

mutual

/-- The pure formulation of the walk: the record sequence produced from one
subtree given the inherited parent path. -/
def walk : Elem → String → List RobloxScript
  | e@(.mk _ _ _ cs), p =>
    (visitRecord e p).toList ++ walkList cs (childPathOf e p)

/-- The records produced by a list of sibling subtrees, visited in order. -/
def walkList : List Elem → String → List RobloxScript
  | [], _ => []
  | c :: cs, p => walk c p ++ walkList cs p

end

/-- The core of `RobloxFileParser.parse_file` (lines 66-74): the `scripts`
field is reset to the empty list, the tree is walked from the root with the
empty parent path, and the accumulated list is both stored and returned.
The first component is the new `self.scripts`, the second the return value;
the previous field content is discarded by the reset. -/
def parse_file (_scripts_before : List RobloxScript) (root : Elem) :
    List RobloxScript × List RobloxScript :=
  (_parse_element root "" [], _parse_element root "" [])

/-- One iteration of the counting loop of `get_script_count` (lines 151-153):
the record's kind is incremented when it is one of the dict's keys. -/
def countStep (counts : List (String × Nat)) (s : RobloxScript) :
    List (String × Nat) :=
  if counts.any (fun p => p.1 == s.script_type) then
    counts.map (fun p => if p.1 == s.script_type then (p.1, p.2 + 1) else p)
  else counts

/-- The per-kind counter `RobloxFileParser.get_script_count` (lines 148-154):
a dict with the three kinds initialised to zero, incremented per record when
the record's kind is one of its keys. -/
def get_script_count (scripts : List RobloxScript) : List (String × Nat) :=
  scripts.foldl countStep [("Script", 0), ("LocalScript", 0), ("ModuleScript", 0)]

mutual

/-- The pre-order visitation sequence of the walk: every node of the subtree
paired with the parent path it is visited with, the node itself listed
before its children and the children in their original order. -/
def preorderPaths : Elem → String → List (Elem × String)
  | e@(.mk _ _ _ cs), p => (e, p) :: preorderList cs (childPathOf e p)

/-- The visitation sequences of a list of sibling subtrees, in order. -/
def preorderList : List Elem → String → List (Elem × String)
  | [], _ => []
  | c :: cs, p => preorderPaths c p ++ preorderList cs p

end

/-- The node reached from an element by a list of child indices. -/
def subtreeAt : Elem → List Nat → Option Elem
  | e, [] => some e
  | e, i :: is =>
    match e.children[i]? with
    | some c => subtreeAt c is
    | none => none

/-- The chain of proper ancestors (from the root down) of the node reached
by a list of child indices. -/
def ancestorsAlong : Elem → List Nat → List Elem
  | _, [] => []
  | e, i :: is =>
    e :: (match e.children[i]? with
          | some c => ancestorsAlong c is
          | none => [])

/-- Appending one path segment, the two branches of line 94 of the source. -/
def appendSegment (p n : String) : String :=
  if p ≠ "" then osPathJoin p n else n

/-- The parent path obtained from a starting path by letting exactly the
non-script-kind ancestors with a non-empty resolved name contribute their
name as a segment, in order from the root down. -/
def pathFromAncestors (p : String) (as : List Elem) : String :=
  (as.filter (fun a => _get_element_name a != "" && !(isScriptClass (elemClass a)))).foldl
    (fun q a => appendSegment q (_get_element_name a)) p

/-- The Source text a single Properties grouping offers: the text of its
first child named `Source`, absent text read as the empty string. -/
def srcOf (g : Elem) : String :=
  match findNamedChild g "Source" with
  | some c => (c.text).getD ""
  | none => ""

/-- Modelled from the spec's words for `filenameFor` (section 4.2): sanitize
the name keeping only alphanumerics, spaces, hyphens and underscores, trim
trailing whitespace, substitute `script` when empty, and append the
kind-determined extension. -/
def filenameForSpec (r : RobloxScript) : String :=
  let kept := r.name.data.filter
    (fun c => c.isAlphanum || c == ' ' || c == '-' || c == '_')
  let base := String.mk (kept.reverse.dropWhile isPyWs).reverse
  (if base = "" then "script" else base) ++
    (if r.script_type == "ModuleScript" then ".lua"
     else if r.script_type == "LocalScript" then ".client.lua"
     else ".server.lua")

/-- A script-kind element whose Properties grouping has a `Source` child
with absent text, next to a string leaf named `Source` with non-empty text:
the input on which the two lookup strategies disagree. -/
def cexC1 : Elem :=
  .mk "Item" [("class", "Script")] none [
    .mk "Properties" [] none [
      .mk "ProtectedString" [("name", "Source")] none []],
    .mk "string" [("name", "Source")] (some "x") []]

/-- An element with no Properties grouping, a string leaf named `Name`, and
a `referent` attribute: the input on which name resolution prefers the
string leaf over the referent. -/
def cexC9 : Elem :=
  .mk "Item" [("class", "Folder"), ("referent", "R1")] none [
    .mk "string" [("name", "Name")] (some "X") []]

/-- A script-kind element with two Properties groupings that both carry a
`Source` child: the input on which the overwrite behaviour of strategy (a)
is visible. -/
def cexC10 : Elem :=
  .mk "Item" [("class", "Script")] none [
    .mk "Properties" [] none [
      .mk "ProtectedString" [("name", "Source")] (some "first") []],
    .mk "Properties" [] none [
      .mk "ProtectedString" [("name", "Source")] (some "second") []]]

/-- The example tree of the specification: a `DataModel` root containing a
`Folder` named "Workspace" containing a `Script` named "Main" whose Source
is `print('hi')`, in the canonical Properties encoding. -/
def exTree : Elem :=
  .mk "Item" [("class", "DataModel")] none [
    .mk "Item" [("class", "Folder")] none [
      .mk "Properties" [] none [
        .mk "string" [("name", "Name")] (some "Workspace") []],
      .mk "Item" [("class", "Script")] none [
        .mk "Properties" [] none [
          .mk "string" [("name", "Name")] (some "Main") [],
          .mk "ProtectedString" [("name", "Source")] (some "print('hi')") []]]]]

/-- The one record the walk produces from `exTree`. -/
def exRec : RobloxScript :=
  ⟨"Main", "print('hi')", "Script", "Workspace/Workspace"⟩

/-- Structural induction for `Elem` with the hypothesis available for every
child of the node. -/
theorem Elem.ind {P : Elem → Prop}
    (h : ∀ t a x cs, (∀ c ∈ cs, P c) → P (Elem.mk t a x cs)) :
    ∀ e, P e
  | Elem.mk t a x cs => h t a x cs (fun c _hc => Elem.ind h c)
termination_by e => sizeOf e
decreasing_by
  have := List.sizeOf_lt_of_mem _hc
  simp only [Elem.mk.sizeOf_spec]
  omega

example : walk exTree "" = [exRec] := rfl

example : RobloxScript.get_filename exRec = "Main.server.lua" := rfl

example : RobloxScript.get_full_path exRec = "Workspace/Workspace/Main.server.lua" := rfl

/-- Fields of a record produced by `_extract_script`: the source is the
looked-up text, the kind is the class passed in, the parent path is the
inherited path. -/
theorem _extract_script_some_fields (e : Elem) (k p : String) (r : RobloxScript)
    (h : _extract_script e k p = some r) :
    r.source = lookupSource e ∧ r.script_type = k ∧ r.parent_path = p := by
  simp only [_extract_script] at h
  split at h
  · cases h
    exact ⟨rfl, rfl, rfl⟩
  · cases h

/-- A record attempt fails exactly when the looked-up source is whitespace
only. -/
theorem _extract_script_none_iff (e : Elem) (k p : String) :
    _extract_script e k p = none ↔ pyStrip (lookupSource e) = "" := by
  simp only [_extract_script]
  split
  · rename_i hne
    simp only [reduceCtorEq, false_iff]
    exact fun hc => hne hc
  · rename_i hne
    simp only [true_iff]
    exact not_ne_iff.mp hne

/-- A successful record attempt comes from a script-kind element and keeps
the inherited path. -/
theorem visitRecord_some (e : Elem) (p : String) (r : RobloxScript)
    (h : visitRecord e p = some r) :
    isScriptClass (elemClass e) = true ∧ _extract_script e (elemClass e) p = some r := by
  unfold visitRecord at h
  split at h
  · exact ⟨by assumption, h⟩
  · cases h

/-- The stateful walk only appends: running `_parse_element` from an
accumulated list yields that list followed by the pure walk's records. -/
theorem parse_element_eq_walk :
    ∀ e : Elem, ∀ (p : String) (acc : List RobloxScript),
      _parse_element e p acc = acc ++ walk e p := by
  refine Elem.ind ?_
  intro t a x cs ih p acc
  show parseChildren cs _ _ = _
  have aux : ∀ (cs' : List Elem),
      (∀ c ∈ cs', ∀ (q : String) (acc' : List RobloxScript),
        _parse_element c q acc' = acc' ++ walk c q) →
      ∀ (q : String) (acc' : List RobloxScript),
        parseChildren cs' q acc' = acc' ++ walkList cs' q := by
    intro cs'
    induction cs' with
    | nil => intro _ q acc'; simp [parseChildren, walkList]
    | cons c cs' ihl =>
      intro hmem q acc'
      show parseChildren cs' q (_parse_element c q acc') = _
      rw [hmem c (List.mem_cons_self c cs') q acc',
        ihl (fun c' hc' => hmem c' (List.mem_cons_of_mem c hc')) q]
      simp [walkList]
  rw [aux cs ih]
  show _ = acc ++ ((visitRecord (Elem.mk t a x cs) p).toList ++ _)
  cases visitRecord (Elem.mk t a x cs) p <;> simp

/-- A record produced by a list of sibling subtrees comes from one of them,
reachable by its index. -/
theorem mem_walkList (r : RobloxScript) :
    ∀ (cs : List Elem) (p : String), r ∈ walkList cs p →
      ∃ (i : Nat) (c : Elem), cs[i]? = some c ∧ r ∈ walk c p := by
  intro cs
  induction cs with
  | nil => intro p h; simp [walkList] at h
  | cons c cs ih =>
    intro p h
    rw [show walkList (c :: cs) p = walk c p ++ walkList cs p from rfl,
      List.mem_append] at h
    cases h with
    | inl h => exact ⟨0, c, by simp, h⟩
    | inr h =>
      obtain ⟨i, c', hi, hr⟩ := ih p h
      exact ⟨i + 1, c', by simpa using hi, hr⟩

/-- The pure walk is the filter of the pre-order visitation sequence by the
per-node record attempt: records appear in document order, a node's own
record before its children's, children in their original order. -/
theorem walk_as_filterMap :
    ∀ e : Elem, ∀ p : String,
      walk e p = (preorderPaths e p).filterMap (fun np => visitRecord np.1 np.2) := by
  refine Elem.ind ?_
  intro t a x cs ih p
  have aux : ∀ (cs' : List Elem),
      (∀ c ∈ cs', ∀ q : String,
        walk c q = (preorderPaths c q).filterMap (fun np => visitRecord np.1 np.2)) →
      ∀ q : String,
        walkList cs' q = (preorderList cs' q).filterMap (fun np => visitRecord np.1 np.2) := by
    intro cs'
    induction cs' with
    | nil => intro _ q; simp [walkList, preorderList]
    | cons c cs' ihl =>
      intro hmem q
      show walk c q ++ walkList cs' q = List.filterMap _ (preorderPaths c q ++ preorderList cs' q)
      rw [List.filterMap_append, hmem c (List.mem_cons_self c cs') q,
        ihl (fun c' hc' => hmem c' (List.mem_cons_of_mem c hc')) q]
  show (visitRecord (Elem.mk t a x cs) p).toList ++ _ = _
  rw [show preorderPaths (Elem.mk t a x cs) p
      = (Elem.mk t a x cs, p) :: preorderList cs (childPathOf (Elem.mk t a x cs) p) from rfl,
    List.filterMap_cons, aux cs ih]
  cases visitRecord (Elem.mk t a x cs) p <;> simp

/-- Consuming one ancestor: the path built from a starting path with `e` in
front of the chain is the path built from `e`'s child path. -/
theorem pathFromAncestors_cons (e : Elem) (p : String) (as : List Elem) :
    pathFromAncestors p (e :: as) = pathFromAncestors (childPathOf e p) as := by
  simp only [pathFromAncestors, List.filter_cons, childPathOf]
  by_cases h1 : _get_element_name e = ""
  · simp [h1]
  · by_cases h2 : isScriptClass (elemClass e) = true
    · simp [h1, h2, bne_iff_ne]
    · rw [Bool.not_eq_true] at h2
      simp [h1, h2, bne_iff_ne, appendSegment]

/-- Every emitted record's parent path is built from the walk's starting
path by the names of the non-script-kind, non-empty-named proper ancestors
of its (script-kind) node alone: script-kind ancestors are filtered out of
path composition. -/
theorem walk_parent_path :
    ∀ e : Elem, ∀ (p : String) (r : RobloxScript), r ∈ walk e p →
      ∃ pos n, subtreeAt e pos = some n ∧ isScriptClass (elemClass n) = true ∧
        r.parent_path = pathFromAncestors p (ancestorsAlong e pos) := by
  refine Elem.ind ?_
  intro t a x cs ih p r hr
  rw [show walk (Elem.mk t a x cs) p
      = (visitRecord (Elem.mk t a x cs) p).toList
        ++ walkList cs (childPathOf (Elem.mk t a x cs) p) from rfl,
    List.mem_append] at hr
  cases hr with
  | inl h =>
    rw [Option.mem_toList, Option.mem_def] at h
    obtain ⟨hscript, hex⟩ := visitRecord_some _ _ _ h
    obtain ⟨-, -, hpath⟩ := _extract_script_some_fields _ _ _ _ hex
    exact ⟨[], Elem.mk t a x cs, rfl, hscript, hpath⟩
  | inr h =>
    obtain ⟨i, c, hi, hrc⟩ := mem_walkList r cs _ h
    obtain ⟨hc, -⟩ := List.getElem?_eq_some.mp hi
    obtain ⟨pos, n, hsub, hscript, hpath⟩ := ih c (by
      have := List.getElem?_eq_some.mp hi
      obtain ⟨hlt, heq⟩ := this
      exact heq ▸ List.getElem_mem hlt) _ r hrc
    refine ⟨i :: pos, n, ?_, hscript, ?_⟩
    · show (match (Elem.mk t a x cs).children[i]? with
        | some c => subtreeAt c pos
        | none => none) = some n
      rw [show (Elem.mk t a x cs).children = cs from rfl, hi]
      exact hsub
    · rw [show ancestorsAlong (Elem.mk t a x cs) (i :: pos)
        = Elem.mk t a x cs :: (match (Elem.mk t a x cs).children[i]? with
            | some c => ancestorsAlong c pos
            | none => []) from rfl,
        show (Elem.mk t a x cs).children = cs from rfl, hi,
        pathFromAncestors_cons]
      exact hpath

/-- Every record the walk emits has a source that is non-empty after
trimming whitespace. -/
theorem walk_source_nonempty :
    ∀ e : Elem, ∀ (p : String) (r : RobloxScript), r ∈ walk e p →
      pyStrip r.source ≠ "" := by
  refine Elem.ind ?_
  intro t a x cs ih p r hr
  rw [show walk (Elem.mk t a x cs) p
      = (visitRecord (Elem.mk t a x cs) p).toList
        ++ walkList cs (childPathOf (Elem.mk t a x cs) p) from rfl,
    List.mem_append] at hr
  cases hr with
  | inl h =>
    rw [Option.mem_toList, Option.mem_def] at h
    obtain ⟨-, hex⟩ := visitRecord_some _ _ _ h
    obtain ⟨hsrc, -, -⟩ := _extract_script_some_fields _ _ _ _ hex
    simp only [_extract_script] at hex
    split at hex
    · rename_i hne
      rw [hsrc]
      exact hne
    · cases hex
  | inr h =>
    obtain ⟨i, c, hi, hrc⟩ := mem_walkList r cs _ h
    obtain ⟨hlt, heq⟩ := List.getElem?_eq_some.mp hi
    exact ih c (heq ▸ List.getElem_mem hlt) _ r hrc

/-- The overwrite scan evaluated: starting from any initial value, the
result is the value taken from the last grouping (in list order) that has a
`Source` child, or the initial value when no grouping has one. -/
theorem sourceScan_last :
    ∀ (gs : List Elem) (init : String),
      gs.foldl
        (fun source g =>
          match findNamedChild g "Source" with
          | some c => (c.text).getD ""
          | none => source)
        init
      = (gs.reverse.find? (fun g => (findNamedChild g "Source").isSome)).elim init srcOf := by
  intro gs
  induction gs with
  | nil => intro init; simp
  | cons g gs ih =>
    intro init
    rw [List.foldl_cons, ih, List.reverse_cons, List.find?_append]
    cases hfind : gs.reverse.find? (fun g => (findNamedChild g "Source").isSome) with
    | some x => rfl
    | none =>
      cases hg : findNamedChild g "Source" <;>
        simp [hg, srcOf, List.find?_cons]

/-- The grouping scan of name resolution is the first matching entry among
the concatenated child lists of all the groupings, in scan order. -/
theorem scanForNamed_eq (nm : String) :
    ∀ gs : List Elem,
      scanForNamed gs nm
        = (gs.flatMap Elem.children).find? (fun c => c.getAttr "name" == some nm) := by
  intro gs
  induction gs with
  | nil => simp [scanForNamed]
  | cons g gs ih =>
    rw [show scanForNamed (g :: gs) nm
        = (match findNamedChild g nm with
           | some c => some c
           | none => scanForNamed gs nm) from rfl,
      List.flatMap_cons, List.find?_append]
    cases hg : findNamedChild g nm with
    | some c =>
      rw [show (g.children.find? (fun c => c.getAttr "name" == some nm)) = some c from hg]
      rfl
    | none =>
      rw [show (g.children.find? (fun c => c.getAttr "name" == some nm)) = none from hg,
        Option.none_or, ih]

/-- One counting step never changes the dict's key sequence. -/
theorem countStep_keys (counts : List (String × Nat)) (s : RobloxScript) :
    (countStep counts s).map Prod.fst = counts.map Prod.fst := by
  unfold countStep
  split
  · rw [List.map_map]
    apply List.map_congr_left
    intro p _
    show (if p.1 == s.script_type then (p.1, p.2 + 1) else p).1 = p.1
    split <;> rfl
  · rfl

/-- The whole counting fold never changes the dict's key sequence. -/
theorem foldl_countStep_keys :
    ∀ (scripts : List RobloxScript) (counts : List (String × Nat)),
      (scripts.foldl countStep counts).map Prod.fst = counts.map Prod.fst := by
  intro scripts
  induction scripts with
  | nil => intro counts; rfl
  | cons s ss ih => intro counts; rw [List.foldl_cons, ih, countStep_keys]

/-- A script class is one of the three recognised kinds. -/
theorem isScriptClass_cases {k : String} (h : isScriptClass k = true) :
    k = "Script" ∨ k = "LocalScript" ∨ k = "ModuleScript" := by
  simpa [isScriptClass, or_assoc] using h

/-- Counting a `Script`-kind record bumps the first entry. -/
theorem countStep_eval_server (a b c : Nat) (s : RobloxScript)
    (h : s.script_type = "Script") :
    countStep [("Script", a), ("LocalScript", b), ("ModuleScript", c)] s
      = [("Script", a + 1), ("LocalScript", b), ("ModuleScript", c)] := by
  simp [countStep, h]

/-- Counting a `LocalScript`-kind record bumps the second entry. -/
theorem countStep_eval_client (a b c : Nat) (s : RobloxScript)
    (h : s.script_type = "LocalScript") :
    countStep [("Script", a), ("LocalScript", b), ("ModuleScript", c)] s
      = [("Script", a), ("LocalScript", b + 1), ("ModuleScript", c)] := by
  simp [countStep, h]

/-- Counting a `ModuleScript`-kind record bumps the third entry. -/
theorem countStep_eval_module (a b c : Nat) (s : RobloxScript)
    (h : s.script_type = "ModuleScript") :
    countStep [("Script", a), ("LocalScript", b), ("ModuleScript", c)] s
      = [("Script", a), ("LocalScript", b), ("ModuleScript", c + 1)] := by
  simp [countStep, h]

/-- Summing the dict after the counting fold: every recognised record adds
one to the total. -/
theorem foldl_countStep_sum :
    ∀ (scripts : List RobloxScript) (a b c : Nat),
      (∀ s ∈ scripts, isScriptClass s.script_type = true) →
      ((scripts.foldl countStep
          [("Script", a), ("LocalScript", b), ("ModuleScript", c)]).map Prod.snd).sum
        = a + b + c + scripts.length := by
  intro scripts
  induction scripts with
  | nil => intro a b c _; simp; omega
  | cons s ss ih =>
    intro a b c h
    have hs := h s (List.mem_cons_self s ss)
    have hss := fun s' hs' => h s' (List.mem_cons_of_mem s hs')
    rcases isScriptClass_cases hs with h1 | h1 | h1
    · rw [List.foldl_cons, countStep_eval_server a b c s h1, ih _ _ _ hss]
      simp [List.length_cons]
      omega
    · rw [List.foldl_cons, countStep_eval_client a b c s h1, ih _ _ _ hss]
      simp [List.length_cons]
      omega
    · rw [List.foldl_cons, countStep_eval_module a b c s h1, ih _ _ _ hss]
      simp [List.length_cons]
      omega

/-- C1: the two Source-lookup strategies are tried in order and the first
non-empty result wins; but contrary to the claim, when strategy (a) finds a
Properties grouping with a `Source` child whose text is absent, the scan
result is the empty string and lookup DOES fall through to strategy (b):
on `cexC1` the emitted record's source is the string leaf's text `x`. -/
theorem c1_counterexample :
    (propsGroupings cexC1).any (fun g => (findNamedChild g "Source").isSome) = true ∧
    sourcePropsScan (propsGroupings cexC1) = "" ∧
    lookupSource cexC1 = "x" ∧
    _extract_script cexC1 "Script" "" = some ⟨"Script", "x", "Script", ""⟩ :=
  ⟨rfl, rfl, rfl, rfl⟩

/-- C1 (amended): strategy (a)'s non-empty result wins; when strategy (a)
yields the empty string — including when a found `Source` child's text is
absent — lookup falls through to strategy (b), and an emitted record's
source is the looked-up text. -/
theorem c1_lookup_order (e : Elem) (k p : String) :
    (sourcePropsScan (propsGroupings e) ≠ "" →
      lookupSource e = sourcePropsScan (propsGroupings e)) ∧
    (sourcePropsScan (propsGroupings e) = "" →
      lookupSource e
        = ((stringLeaves e "Source").head?).elim "" (fun s => (s.text).getD "")) ∧
    (∀ r : RobloxScript, _extract_script e k p = some r → r.source = lookupSource e) := by
  refine ⟨?_, ?_, ?_⟩
  · intro h
    simp [lookupSource, h]
  · intro h
    cases hh : (stringLeaves e "Source").head? <;> simp [lookupSource, h, hh]
  · intro r h
    exact (_extract_script_some_fields e k p r h).1

/-- Witness for C1 (amended) at the concrete input `cexC1`. -/
theorem c1_lookup_order_witness :
    sourcePropsScan (propsGroupings cexC1) = "" ∧
    lookupSource cexC1
      = ((stringLeaves cexC1 "Source").head?).elim "" (fun s => (s.text).getD "") :=
  ⟨rfl, (c1_lookup_order cexC1 "Script" "").2.1 rfl⟩

/-- C2: on the specification's example tree the walk does emit exactly one
record named `Main` of kind `Script` with source `print('hi')`, but its
parent path is `Workspace/Workspace`, not `Workspace`: the `DataModel` root
resolves its own name through the subtree-wide Properties search, finds the
Folder's `Name` entry and contributes a `Workspace` segment of its own. -/
theorem c2_counterexample :
    walk exTree "" = [exRec] ∧
    exRec.parent_path ≠ "Workspace" ∧
    RobloxScript.get_full_path exRec ≠ "Workspace/Main.server.lua" :=
  ⟨rfl, by decide, by decide⟩

/-- C2 (amended): the example tree yields exactly one record with name
`Main`, kind `Script`, source `print('hi')` and parent path
`Workspace/Workspace`; its filename is `Main.server.lua` and its full path
is `Workspace/Workspace/Main.server.lua`. -/
theorem c2_example :
    walk exTree "" = [exRec] ∧
    exRec.name = "Main" ∧
    exRec.script_type = "Script" ∧
    exRec.source = "print('hi')" ∧
    exRec.parent_path = "Workspace/Workspace" ∧
    RobloxScript.get_filename exRec = "Main.server.lua" ∧
    RobloxScript.get_full_path exRec = "Workspace/Workspace/Main.server.lua" :=
  ⟨rfl, rfl, rfl, rfl, rfl, rfl, rfl⟩

/-- C3: the path passed to a node's children appends the node's resolved
name exactly when the node is non-script-kind with a non-empty name, and
otherwise is inherited unchanged; consequently every emitted record's
parent path is built from the walk's starting path by the names of
non-script-kind (non-empty-named) proper ancestors only — script-kind
ancestors never contribute a segment. -/
theorem c3_path_composition :
    (∀ (e : Elem) (p : String),
      childPathOf e p
        = if _get_element_name e ≠ "" ∧ isScriptClass (elemClass e) = false
          then appendSegment p (_get_element_name e) else p) ∧
    (∀ (root : Elem) (p : String) (r : RobloxScript), r ∈ walk root p →
      ∃ (pos : List Nat) (n : Elem), subtreeAt root pos = some n ∧
        isScriptClass (elemClass n) = true ∧
        r.parent_path = pathFromAncestors p (ancestorsAlong root pos)) :=
  ⟨fun _ _ => rfl, walk_parent_path⟩

/-- Witness for C3 at the record emitted from the example tree. -/
theorem c3_path_composition_witness :
    ∃ (pos : List Nat) (n : Elem), subtreeAt exTree pos = some n ∧
      isScriptClass (elemClass n) = true ∧
      exRec.parent_path = pathFromAncestors "" (ancestorsAlong exTree pos) :=
  c3_path_composition.2 exTree "" exRec
    ((show walk exTree "" = [exRec] from rfl) ▸ List.mem_singleton.mpr rfl)

/-- C4: extraction returns no record exactly when the looked-up Source text
trims to empty; an emitted record keeps the raw untrimmed text, so every
record the walk emits has a source that is not whitespace-only. -/
theorem c4_source_guard :
    (∀ (e : Elem) (k p : String),
      match _extract_script e k p with
      | none => pyStrip (lookupSource e) = ""
      | some r => r.source = lookupSource e ∧ pyStrip r.source ≠ "") ∧
    (∀ (root : Elem) (q : String) (r : RobloxScript), r ∈ walk root q →
      pyStrip r.source ≠ "") := by
  constructor
  · intro e k p
    cases h : _extract_script e k p with
    | none => exact (_extract_script_none_iff e k p).mp h
    | some r =>
      have hsrc := (_extract_script_some_fields e k p r h).1
      refine ⟨hsrc, ?_⟩
      rw [hsrc]
      intro hc
      rw [(_extract_script_none_iff e k p).mpr hc] at h
      cases h
  · exact walk_source_nonempty

/-- Witness for C4 at the record emitted from the example tree. -/
theorem c4_source_guard_witness : pyStrip exRec.source ≠ "" :=
  c4_source_guard.2 exTree "" exRec
    ((show walk exTree "" = [exRec] from rfl) ▸ List.mem_singleton.mpr rfl)

/-- C5: the walk's output is the pre-order visitation sequence filtered by
the per-node record attempt — document order, a node's own record before
its children's records, children in their original sequence. -/
theorem c5_document_order :
    ∀ (e : Elem) (p : String),
      walk e p = (preorderPaths e p).filterMap (fun np => visitRecord np.1 np.2) :=
  walk_as_filterMap

/-- C6: for records of a recognised kind, `get_filename` agrees with the
specification's description: keep alphanumerics, spaces, hyphens and
underscores, trim trailing whitespace, substitute `script` when empty,
append the kind-determined extension. -/
theorem c6_filename (r : RobloxScript) (h : isScriptClass r.script_type = true) :
    RobloxScript.get_filename r = filenameForSpec r := by
  rcases isScriptClass_cases h with h1 | h1 | h1 <;>
    simp [RobloxScript.get_filename, filenameForSpec, pyRstrip, h1]

/-- Witness for C6 at a concrete record with characters to sanitize. -/
theorem c6_filename_witness :
    isScriptClass "LocalScript" = true ∧
    RobloxScript.get_filename ⟨" He!llo_ ", "src", "LocalScript", ""⟩
      = filenameForSpec ⟨" He!llo_ ", "src", "LocalScript", ""⟩ ∧
    RobloxScript.get_filename ⟨" He!llo_ ", "src", "LocalScript", ""⟩
      = " Hello_.client.lua" :=
  ⟨rfl, c6_filename ⟨" He!llo_ ", "src", "LocalScript", ""⟩ rfl, rfl⟩

/-- C7: the count dict always has exactly the three kind keys in order,
starts from zero for each, and for sequences of recognised-kind records the
counts sum to the sequence's length. -/
theorem c7_count (scripts : List RobloxScript) :
    (get_script_count scripts).map Prod.fst = ["Script", "LocalScript", "ModuleScript"] ∧
    get_script_count [] = [("Script", 0), ("LocalScript", 0), ("ModuleScript", 0)] ∧
    ((∀ s ∈ scripts, isScriptClass s.script_type = true) →
      ((get_script_count scripts).map Prod.snd).sum = scripts.length) := by
  refine ⟨?_, rfl, ?_⟩
  · rw [get_script_count, foldl_countStep_keys]
    rfl
  · intro h
    rw [get_script_count, foldl_countStep_sum scripts 0 0 0 h]
    omega

/-- Witness for C7 at a concrete three-record sequence. -/
theorem c7_count_witness :
    (∀ s ∈ ([⟨"A", "x", "Script", ""⟩, ⟨"B", "y", "ModuleScript", ""⟩,
        ⟨"C", "z", "Script", ""⟩] : List RobloxScript),
      isScriptClass s.script_type = true) ∧
    ((get_script_count [⟨"A", "x", "Script", ""⟩, ⟨"B", "y", "ModuleScript", ""⟩,
        ⟨"C", "z", "Script", ""⟩]).map Prod.snd).sum = 3 :=
  ⟨by decide, (c7_count _).2.2 (by decide)⟩

/-- C8: `parse_file` resets the accumulated script list before walking, so
a second call on the same tree returns the same record sequence as the
first, whatever state was left behind — and both equal the pure walk from
the root with the empty path. -/
theorem c8_idempotent (st : List RobloxScript) (root : Elem) :
    (parse_file ((parse_file st root).1) root).2 = (parse_file st root).2 ∧
    (parse_file st root).2 = walk root "" := by
  constructor
  · rfl
  · show _parse_element root "" [] = walk root ""
    rw [parse_element_eq_walk root "" []]
    rfl

/-- C9: name resolution does search the whole subtree, but contrary to the
claim it does not fall back directly to the referent attribute: on `cexC9`,
which has no Properties grouping at all, the name comes from the string
leaf named `Name` (`X`), not from the referent `R1`. -/
theorem c9_counterexample :
    _get_element_name cexC9 = "X" ∧
    cexC9.getAttr "referent" = some "R1" ∧
    propsGroupings cexC9 = [] ∧
    ("X" : String) ≠ "R1" :=
  ⟨rfl, rfl, rfl, by decide⟩

/-- C9 (amended): the grouping scan takes the first `Name` entry among the
concatenated child lists of all Properties groupings of the subtree in scan
order; when it finds one its text is the resolved name; when no grouping
has one, resolution falls back first to the first string-typed leaf named
`Name` in the subtree, and only then to the referent attribute and the kind
label. -/
theorem c9_name_resolution (e : Elem) :
    (scanForNamed (propsGroupings e) "Name"
      = ((propsGroupings e).flatMap Elem.children).find?
          (fun c => c.getAttr "name" == some "Name")) ∧
    (∀ c : Elem, scanForNamed (propsGroupings e) "Name" = some c →
      _get_element_name e = (c.text).getD "") ∧
    (scanForNamed (propsGroupings e) "Name" = none →
      _get_element_name e
        = ((stringLeaves e "Name").head?).elim
            (e.getAttrD "referent" (e.getAttrD "class" ""))
            (fun s => (s.text).getD "")) := by
  refine ⟨scanForNamed_eq "Name" (propsGroupings e), ?_, ?_⟩
  · intro c hc
    simp [_get_element_name, hc]
  · intro h
    cases hh : (stringLeaves e "Name").head? <;> simp [_get_element_name, h, hh]

/-- Witness for C9 (amended) at the concrete input `cexC9`. -/
theorem c9_name_resolution_witness :
    scanForNamed (propsGroupings cexC9) "Name" = none ∧
    _get_element_name cexC9
      = ((stringLeaves cexC9 "Name").head?).elim
          (cexC9.getAttrD "referent" (cexC9.getAttrD "class" ""))
          (fun s => (s.text).getD "") :=
  ⟨rfl, (c9_name_resolution cexC9).2.2 rfl⟩

/-- C10: strategy (a)'s scan does not stop at the first match — its result
is the value of the last grouping in document order that has a `Source`
child (each later match overwrites the earlier one), as the two-grouping
input `cexC10` shows concretely. -/
theorem c10_last_grouping_wins (e : Elem) :
    (sourcePropsScan (propsGroupings e)
      = ((propsGroupings e).reverse.find?
          (fun g => (findNamedChild g "Source").isSome)).elim "" srcOf) ∧
    sourcePropsScan (propsGroupings cexC10) = "second" ∧
    lookupSource cexC10 = "second" :=
  ⟨sourceScan_last (propsGroupings e) "", rfl, rfl⟩
